import Mathlib

/-!
Verification of the consistent-hash routing core of
src/Functions/nucolumnarConsistentHash.cpp: the bucket resolver
(NuColumnarHashRange) and the shard resolver (NuColumnarConsistentHash).
The C++ block/column machinery is embedded shallowly: a block is a list of
typed columns, a column a list of scalar cells; size_t arithmetic is Nat
modulo 2^64.
-/

set_option maxRecDepth 10000

namespace NuHash

/-- Word modulus of 64-bit size_t arithmetic in the source. -/
def W : Nat := 2 ^ 64

/-- The subset of TypeIndex values the source dispatches on: the four hashed
kinds of NuColumnarHashRange::concatenatedHash (UInt8, Int8, Int64, String),
the UInt32 checks of NuColumnarConsistentHash::executeImpl, Date, and tOther
collapsing every remaining type id (those hit the default branch of the
switch and are skipped). -/
inductive TypeIndex where
  | tUInt8
  | tInt8
  | tInt64
  | tString
  | tUInt32
  | tDate
  | tOther
  deriving DecidableEq

/-- A scalar cell of a column. Payload kinds mirror the concrete column
classes read by the source (ColumnUInt8, ColumnInt8, ColumnInt64,
ColumnString, ColumnUInt32); vOther stands for a cell of any other column
class, whose content the source never reads. -/
inductive CValue where
  | vUInt8 (v : Nat)
  | vInt8 (v : Int)
  | vInt64 (v : Int)
  | vString (s : String)
  | vUInt32 (v : Nat)
  | vOther
  deriving DecidableEq

def CValue.asUInt8 : CValue → Nat
  | CValue.vUInt8 v => v
  | _ => 0

def CValue.asInt8 : CValue → Int
  | CValue.vInt8 v => v
  | _ => 0

def CValue.asInt64 : CValue → Int
  | CValue.vInt64 v => v
  | _ => 0

def CValue.asString : CValue → String
  | CValue.vString s => s
  | _ => ""

def CValue.asUInt32 : CValue → Nat
  | CValue.vUInt32 v => v
  | _ => 0

/-- A column together with its declared data type: the pair the source reads
through block.getByPosition(i).type and block.getByPosition(i).column. -/
structure ColumnData where
  type : TypeIndex
  data : List CValue
  deriving DecidableEq

/-- A columnar block: columns addressed by position. -/
structure Block where
  cols : List ColumnData
  deriving DecidableEq

/-- Placeholder column for an out-of-range position (the source never indexes
out of range; this keeps the embedding total). -/
def dcol : ColumnData := ⟨TypeIndex.tOther, []⟩

def Block.colAt (b : Block) (i : Nat) : ColumnData := b.cols.getD i dcol

/-- getDataAt(0) / getElement(0): the cell at row index 0 of a column. -/
def ColumnData.row0 (c : ColumnData) : CValue := c.data.headD CValue.vOther

/-- Multiplier of the 64-bit boost hash_combine_impl. -/
def m64 : Nat := 0xc6a4a7935bd1e995

/-- Modelled from the spec: the stable, order-sensitive hash combination step
of spec section 4.1 step 2 (seed = combine(seed, hash(value))). The
repository vendors boost outside src/; this is the 64-bit murmur-style
hash_combine_impl that boost::hash_combine resolves to for std::size_t
seeds: k *= m; k ^= k >> 47; k *= m; h ^= k; h *= m; h += 0xe6546b64, all
modulo 2^64. -/
def hash_combine (seed k : Nat) : Nat :=
  let k1 := (k * m64) % W
  let k2 := k1 ^^^ (k1 >>> 47)
  let k3 := (k2 * m64) % W
  let h1 := seed ^^^ k3
  let h2 := (h1 * m64) % W
  (h2 + 0xe6546b64) % W

/-- static_cast of a signed integral value to 64-bit size_t: two-s-complement
reduction modulo 2^64 (boost hash_value of a signed integer no wider than
size_t is exactly this cast). -/
def toSizeT (v : Int) : Nat := (v % (2 ^ 64 : Int)).toNat

/-- A std::string byte read through the signed char element type and then
converted to size_t, as boost hash_value does per character on a platform
with signed char. -/
def charToSizeT (b : Nat) : Nat := if b < 128 then b else 2 ^ 64 - 256 + b

/-- UTF-8 bytes of a string, as natural numbers. -/
def strBytes (s : String) : List Nat := s.toUTF8.toList.map (fun b => b.toNat)

/-- Modelled from the spec: boost hash_value for std::string (spec 4.1,
strings combined by content), which is hash_range over the characters: a
fold of hash_combine over each char starting from seed 0. -/
def hash_value_str (s : String) : Nat :=
  (strBytes s).foldl (fun seed b => hash_combine seed (charToSizeT b)) 0

/-- The four type ids given a hashing arm by the switch in
NuColumnarHashRange::concatenatedHash. -/
def supportedType : TypeIndex → Bool
  | TypeIndex.tUInt8 => true
  | TypeIndex.tInt8 => true
  | TypeIndex.tInt64 => true
  | TypeIndex.tString => true
  | _ => false

/-- One iteration of the loop of NuColumnarHashRange::concatenatedHash:
dispatch on the declared type of the argument column, fold the row-0 value
into the seed for the four supported kinds, leave the seed unchanged on the
default branch. -/
def hashStep (block : Block) (seed : Nat) (argPos : Nat) : Nat :=
  let c := block.colAt argPos
  match c.type with
  | TypeIndex.tUInt8 => hash_combine seed c.row0.asUInt8
  | TypeIndex.tInt8 => hash_combine seed (toSizeT c.row0.asInt8)
  | TypeIndex.tInt64 => hash_combine seed (toSizeT c.row0.asInt64)
  | TypeIndex.tString => hash_combine seed (hash_value_str c.row0.asString)
  | _ => seed

/-- NuColumnarHashRange::concatenatedHash: seed starts at 0 and every
argument column is folded in, in argument order, reading row 0 only. -/
def concatenatedHash (block : Block) (arguments : List Nat) : Nat :=
  arguments.foldl (hashStep block) 0

/-- NuColumnarHashRange::unit_range = (static_cast<std::size_t>(-1) - 15) / 16. -/
def unit_range : Nat := (W - 1 - 15) / 16

/-- NuColumnarHashRange::hash_ranges, the 16-entry static boundary table.
The C++ expressions are size_t arithmetic; none of them overflows 2^64 (the
largest is unit_range * 15 + 14 < 2^64), so plain Nat arithmetic coincides
with the source values. -/
def hash_ranges : List Nat :=
  [ unit_range,
    unit_range * 2 + 1,
    unit_range * 3 + 2,
    unit_range * 4 + 3,
    unit_range * 5 + 4,
    unit_range * 6 + 5,
    unit_range * 7 + 6,
    unit_range * 8 + 7,
    unit_range * 9 + 8,
    unit_range * 10 + 9,
    unit_range * 11 + 10,
    unit_range * 12 + 11,
    unit_range * 13 + 12,
    unit_range * 14 + 13,
    unit_range * 15 + 14,
    W - 1 ]

/-- Index computed by std::lower_bound(begin, end, v) on a list: the number
of leading elements strictly below v, i.e. the position of the first element
that is not < v, or the length when every element is below v. -/
def lowerBoundIdx : List Nat → Nat → Nat
  | [], _ => 0
  | x :: xs, v => if x < v then lowerBoundIdx xs v + 1 else 0

/-- NuColumnarHashRange::executeImpl: combine the hash, run lower_bound over
hash_ranges, add 1 to the offset, and push the bucket as a single UInt32
element into the result column (modelled as the result column data). -/
def hashRangeExecuteImpl (block : Block) (arguments : List Nat) : List Nat :=
  let combinedHash := concatenatedHash block arguments
  let bucketIdx := lowerBoundIdx hash_ranges combinedHash + 1
  [bucketIdx % 2 ^ 32]

/-- Spec-side reading of spec 4.1 step 3: the 1-based position of the first
boundary greater than or equal to h in the boundary table. -/
def firstBoundaryGePos (h : Nat) : Nat :=
  hash_ranges.findIdx (fun x => decide (h ≤ x)) + 1

/-- Interval i of the boundary table (0-indexed, spec section 3): interval 0
is [0, boundaries 0], interval i is (boundaries (i-1), boundaries i]. -/
def inBucketInterval (i h : Nat) : Prop :=
  h ≤ hash_ranges.getD i 0 ∧ (i = 0 ∨ hash_ranges.getD (i - 1) 0 < h)

theorem lowerBoundIdx_le_length (l : List Nat) (v : Nat) :
    lowerBoundIdx l v ≤ l.length := by
  induction l with
  | nil => simp [lowerBoundIdx]
  | cons x xs ih =>
    rw [lowerBoundIdx]
    split
    · simpa using ih
    · simp

theorem lowerBoundIdx_lt (l : List Nat) (v : Nat) :
    ∀ k, k < lowerBoundIdx l v → l.getD k 0 < v := by
  induction l with
  | nil => intro k hk; simp [lowerBoundIdx] at hk
  | cons x xs ih =>
    intro k hk
    rw [lowerBoundIdx] at hk
    split at hk
    next hx =>
      cases k with
      | zero => simpa using hx
      | succ k =>
        simp only [List.getD_cons_succ]
        exact ih k (by omega)
    next hx => omega

theorem lowerBoundIdx_ge (l : List Nat) (v : Nat) :
    lowerBoundIdx l v < l.length → v ≤ l.getD (lowerBoundIdx l v) 0 := by
  induction l with
  | nil => intro h; simp [lowerBoundIdx] at h
  | cons x xs ih =>
    intro h
    by_cases hx : x < v
    · rw [lowerBoundIdx, if_pos hx] at h ⊢
      simp only [List.getD_cons_succ]
      exact ih (by simp only [List.length_cons] at h; omega)
    · rw [lowerBoundIdx, if_neg hx]
      simpa using Nat.le_of_not_lt hx

theorem lowerBoundIdx_eq_findIdx (l : List Nat) (v : Nat) :
    lowerBoundIdx l v = l.findIdx (fun x => decide (v ≤ x)) := by
  induction l with
  | nil => rfl
  | cons x xs ih =>
    rw [lowerBoundIdx, List.findIdx_cons]
    by_cases hx : x < v
    · have hd : decide (v ≤ x) = false := by
        simp [Nat.not_le.mpr hx]
      simp only [hd, cond_false, if_pos hx, ih]
    · have hd : decide (v ≤ x) = true := by
        simp [Nat.le_of_not_lt hx]
      simp only [hd, cond_true, if_neg hx]

theorem hash_ranges_mono :
    ∀ j < 16, ∀ i < j, hash_ranges.getD i 0 < hash_ranges.getD j 0 := by decide

theorem hash_combine_lt (seed k : Nat) : hash_combine seed k < W := by
  simp only [hash_combine]
  exact Nat.mod_lt _ (by decide)

theorem hashStep_lt (block : Block) (seed : Nat) (i : Nat) (h : seed < W) :
    hashStep block seed i < W := by
  simp only [hashStep]
  split
  · exact hash_combine_lt _ _
  · exact hash_combine_lt _ _
  · exact hash_combine_lt _ _
  · exact hash_combine_lt _ _
  · exact h

theorem foldl_preserves_lt (f : Nat → Nat → Nat)
    (hf : ∀ seed x, seed < W → f seed x < W) :
    ∀ (l : List Nat) (seed : Nat), seed < W → l.foldl f seed < W := by
  intro l
  induction l with
  | nil => intro seed h; simpa using h
  | cons x xs ih =>
    intro seed h
    rw [List.foldl_cons]
    exact ih _ (hf seed x h)

theorem concatenatedHash_lt (block : Block) (args : List Nat) :
    concatenatedHash block args < W := by
  unfold concatenatedHash
  exact foldl_preserves_lt (hashStep block) (hashStep_lt block) args 0 (by decide)

theorem lowerBoundIdx_hash_ranges_le (h : Nat) (hh : h < W) :
    lowerBoundIdx hash_ranges h ≤ 15 := by
  by_contra hc
  push_neg at hc
  have h1 : hash_ranges.getD 15 0 < h := lowerBoundIdx_lt hash_ranges h 15 hc
  have h2 : hash_ranges.getD 15 0 = W - 1 := by decide
  have h3 : h ≤ W - 1 := Nat.le_pred_of_lt hh
  rw [h2] at h1
  exact absurd h3 (Nat.not_le.mpr h1)

theorem bucket_interval_unique (h : Nat) (hh : h < 2 ^ 64) :
    ∃! i, i < 16 ∧ inBucketInterval i h := by
  have hhW : h < W := hh
  have hj15 : lowerBoundIdx hash_ranges h ≤ 15 := lowerBoundIdx_hash_ranges_le h hhW
  have hlen : hash_ranges.length = 16 := by decide
  have hge : h ≤ hash_ranges.getD (lowerBoundIdx hash_ranges h) 0 :=
    lowerBoundIdx_ge hash_ranges h (by rw [hlen]; omega)
  refine ⟨lowerBoundIdx hash_ranges h, ⟨by omega, hge, ?_⟩, ?_⟩
  · rcases Nat.eq_zero_or_pos (lowerBoundIdx hash_ranges h) with h0 | hpos
    · exact Or.inl h0
    · exact Or.inr (lowerBoundIdx_lt hash_ranges h (lowerBoundIdx hash_ranges h - 1) (by omega))
  · rintro i ⟨hi16, hle, hor⟩
    by_contra hne
    rcases Nat.lt_or_ge i (lowerBoundIdx hash_ranges h) with hij | hij
    · have hlt := lowerBoundIdx_lt hash_ranges h i hij
      exact absurd hle (Nat.not_le.mpr hlt)
    · have hji : lowerBoundIdx hash_ranges h < i := by omega
      rcases hor with h0 | hlt
      · omega
      · have hmono : hash_ranges.getD (lowerBoundIdx hash_ranges h) 0
            ≤ hash_ranges.getD (i - 1) 0 := by
          rcases Nat.eq_or_lt_of_le (by omega : lowerBoundIdx hash_ranges h ≤ i - 1) with he | hl
          · rw [he]
          · exact Nat.le_of_lt (hash_ranges_mono (i - 1) (by omega) (lowerBoundIdx hash_ranges h) hl)
        have hcon : h ≤ hash_ranges.getD (i - 1) 0 := le_trans hge hmono
        exact absurd hlt (Nat.not_lt.mpr hcon)

/-- C1: for an input tuple of supported scalar types the bucket id returned
by NuColumnarHashRange::executeImpl is in [1, 16]; every 64-bit hash value
lies in exactly one of the 16 boundary intervals; and the bucket id is the
1-based position of the first boundary greater than or equal to the
combined hash in the boundary table. -/
theorem hashRange_bucket_correct (block : Block) (args : List Nat)
    (hsupp : ∀ i ∈ args, supportedType (block.colAt i).type = true) :
    (1 ≤ (hashRangeExecuteImpl block args).headD 0
      ∧ (hashRangeExecuteImpl block args).headD 0 ≤ 16)
    ∧ (∀ h : Nat, h < 2 ^ 64 → ∃! i, i < 16 ∧ inBucketInterval i h)
    ∧ (hashRangeExecuteImpl block args).headD 0
        = firstBoundaryGePos (concatenatedHash block args) := by
  have hhash : concatenatedHash block args < W := concatenatedHash_lt block args
  have hle : lowerBoundIdx hash_ranges (concatenatedHash block args) ≤ 15 :=
    lowerBoundIdx_hash_ranges_le _ hhash
  have hmod : (lowerBoundIdx hash_ranges (concatenatedHash block args) + 1) % 2 ^ 32
      = lowerBoundIdx hash_ranges (concatenatedHash block args) + 1 :=
    Nat.mod_eq_of_lt (lt_of_le_of_lt (by omega) (by decide : (16 : Nat) < 2 ^ 32))
  have hx : hashRangeExecuteImpl block args
      = [lowerBoundIdx hash_ranges (concatenatedHash block args) + 1] := by
    simp only [hashRangeExecuteImpl]
    rw [hmod]
  refine ⟨?_, fun h hh => bucket_interval_unique h hh, ?_⟩
  · rw [hx]
    simp only [List.headD_cons]
    omega
  · rw [hx]
    simp only [List.headD_cons, firstBoundaryGePos]
    rw [lowerBoundIdx_eq_findIdx]

theorem foldl_skip_all (f : Nat → Nat → Nat) :
    ∀ l : List Nat, (∀ i ∈ l, ∀ seed, f seed i = seed) →
      ∀ seed, l.foldl f seed = seed := by
  intro l
  induction l with
  | nil => intro _ seed; rfl
  | cons x xs ih =>
    intro h seed
    rw [List.foldl_cons, h x (by simp) seed]
    exact ih (fun i hi s => h i (by simp [hi]) s) seed

theorem hashStep_unsupported (block : Block) (i : Nat)
    (h : supportedType (block.colAt i).type = false) :
    ∀ seed, hashStep block seed i = seed := by
  intro seed
  simp only [hashStep]
  split <;> simp_all [supportedType]

/-- C6: a tuple holding only unsupported types is fully skipped by the hash
loop, the seed stays 0, and hash 0 falls in the first boundary interval: the
result column is [1]. -/
theorem hashRange_unsupported_bucket_one (block : Block) (args : List Nat)
    (h : ∀ i ∈ args, supportedType (block.colAt i).type = false) :
    hashRangeExecuteImpl block args = [1] := by
  have h0 : concatenatedHash block args = 0 := by
    unfold concatenatedHash
    exact foldl_skip_all (hashStep block) args
      (fun i hi => hashStep_unsupported block i (h i hi)) 0
  simp only [hashRangeExecuteImpl, h0]
  decide

theorem hashStep_congr_row0 (b1 b2 : Block) (i : Nat)
    (ht : (b1.colAt i).type = (b2.colAt i).type)
    (hr : (b1.colAt i).row0 = (b2.colAt i).row0) (seed : Nat) :
    hashStep b1 seed i = hashStep b2 seed i := by
  simp only [hashStep, ht, hr]

theorem foldl_congr_mem (f g : Nat → Nat → Nat) :
    ∀ l : List Nat, (∀ i ∈ l, ∀ s, f s i = g s i) →
      ∀ seed, l.foldl f seed = l.foldl g seed := by
  intro l
  induction l with
  | nil => intro _ seed; rfl
  | cons x xs ih =>
    intro h seed
    rw [List.foldl_cons, List.foldl_cons, h x (by simp) seed]
    exact ih (fun i hi s => h i (by simp [hi]) s) _

theorem concatenatedHash_congr_row0 (b1 b2 : Block) (args : List Nat)
    (h : ∀ i ∈ args, (b1.colAt i).type = (b2.colAt i).type
      ∧ (b1.colAt i).row0 = (b2.colAt i).row0) :
    concatenatedHash b1 args = concatenatedHash b2 args := by
  unfold concatenatedHash
  exact foldl_congr_mem (hashStep b1) (hashStep b2) args
    (fun i hi s => hashStep_congr_row0 b1 b2 i (h i hi).1 (h i hi).2 s) 0

/-- C7: BucketResolver is deterministic: the result is a function of the
argument column data alone, so two invocations over equal argument columns
(in possibly distinct blocks) return the same bucket; no clock, randomness
or external state occurs in the definition. -/
theorem hashRange_deterministic (b1 b2 : Block) (args : List Nat)
    (h : ∀ i ∈ args, b1.colAt i = b2.colAt i) :
    hashRangeExecuteImpl b1 args = hashRangeExecuteImpl b2 args := by
  have hc : concatenatedHash b1 args = concatenatedHash b2 args :=
    concatenatedHash_congr_row0 b1 b2 args (fun i hi => by rw [h i hi]; exact ⟨rfl, rfl⟩)
  simp only [hashRangeExecuteImpl, hc]

/-- Two-column block exhibiting order sensitivity: column 0 holds Int64
value 1, column 1 holds Int64 value 3. -/
def orderBlock : Block :=
  ⟨[⟨TypeIndex.tInt64, [CValue.vInt64 1]⟩, ⟨TypeIndex.tInt64, [CValue.vInt64 3]⟩]⟩

/-- C8: the hash combination is order sensitive: hashing the distinct Int64
values 1 and 3 in the two argument orders yields different buckets (7
and 12). -/
theorem hashRange_order_sensitive :
    orderBlock.colAt 0 ≠ orderBlock.colAt 1
    ∧ hashRangeExecuteImpl orderBlock [0, 1] = [7]
    ∧ hashRangeExecuteImpl orderBlock [1, 0] = [12]
    ∧ hashRangeExecuteImpl orderBlock [0, 1] ≠ hashRangeExecuteImpl orderBlock [1, 0] := by
  decide

/-- C5: the 16-entry bucket boundary table is strictly increasing
(boundaries i < boundaries (i+1) for i in [0, 14]) and its last entry is the
maximum representable 64-bit unsigned value. In this development the table
is a closed definition, mirroring the immutable process-wide static table of
the source. -/
theorem hash_ranges_strictly_increasing_and_max :
    hash_ranges.length = 16
    ∧ (∀ i < 15, hash_ranges.getD i 0 < hash_ranges.getD (i + 1) 0)
    ∧ hash_ranges.getD 15 0 = 2 ^ 64 - 1 := by decide

/-- The three ClickHouse error codes declared at the top of the source file. -/
inductive ErrorCode where
  | illegalTypeOfArgument
  | numberOfArgumentsDoesntMatch
  | illegalColumn
  deriving DecidableEq

/-- Failure outcomes of the shard path: a DB::Exception with its message and
error code, or the exceptions std::stoi can raise (std::invalid_argument
when no digits are found, std::out_of_range when the value leaves int
range). -/
inductive CppError where
  | dbException (msg : String) (code : ErrorCode)
  | stdInvalidArgument
  | stdOutOfRange
  deriving DecidableEq

/-- Modelled from the spec: the external mapping dictionary of spec section
6 (the dictionaries loader and ComplexKeyHashedDictionary implementations
live outside src/). loadable models getDictionary succeeding on
default.partition_map_dict; isComplexKeyHashed models the typeid_cast to
ComplexKeyHashedDictionary succeeding; getString is the composite-key
attribute lookup returning the shard id string, or the empty string for an
absent key. -/
structure DictionaryEnv where
  loadable : Bool
  isComplexKeyHashed : Bool
  getString : String → String × String × Nat → String

/-- The getDebugContext lambda of NuColumnarConsistentHash::lookupShard. -/
def getDebugContext (table : String) (date rangeId : Nat) (activeVersion : String) : String :=
  "table: " ++ table ++ ", date: " ++ toString date ++ ", rangeId: "
    ++ toString rangeId ++ ", activeVersion: " ++ activeVersion

/-- Whitespace accepted by std::isspace in the default locale, by character
code: space (32), tab (9), line feed (10), vertical tab (11), form feed
(12), carriage return (13). -/
def isSpaceChar (c : Char) : Bool :=
  c.toNat == 32 || (decide (9 ≤ c.toNat) && decide (c.toNat ≤ 13))

def dropSpaces (cs : List Char) : List Char := cs.dropWhile isSpaceChar

/-- Optional sign handling of strtol: a leading minus (code 45) or plus
(code 43) is consumed; the Bool records a minus. -/
def splitSign : List Char → Bool × List Char
  | c :: rest =>
    if c.toNat = 45 then (true, rest)
    else if c.toNat = 43 then (false, rest)
    else (false, c :: rest)
  | [] => (false, [])

def stoiRest (s : String) : List Char := (splitSign (dropSpaces s.data)).2

def stoiNeg (s : String) : Bool := (splitSign (dropSpaces s.data)).1

/-- Value of a base-10 digit run. -/
def digitsVal (ds : List Char) : Nat :=
  ds.foldl (fun acc c => acc * 10 + (c.toNat - 48)) 0

/-- std::stoi: skip whitespace, take an optional sign and the longest run of
base-10 digits; no digits raises std::invalid_argument, a value outside the
int range raises std::out_of_range, otherwise the signed value is
returned. -/
def stoi (s : String) : Except CppError Int :=
  let digits := (stoiRest s).takeWhile Char.isDigit
  if digits.isEmpty then Except.error CppError.stdInvalidArgument
  else
    let v : Int := if stoiNeg s then -((digitsVal digits : Nat) : Int) else ((digitsVal digits : Nat) : Int)
    if v < -(2 ^ 31 : Int) ∨ (2 ^ 31 : Int) - 1 < v then Except.error CppError.stdOutOfRange
    else Except.ok v

/-- static_cast<UInt32> of the int std::stoi returns: reduction modulo
2^32. -/
def castToUInt32 (v : Int) : Nat := (v % (2 ^ 32 : Int)).toNat

/-- NuColumnarConsistentHash::lookupShard. The three DB::Exception throws
keep their source messages (quote characters of the source are elided and
the contraction in the first message is expanded) and all three use
ILLEGAL_TYPE_OF_ARGUMENT as in the source; the composite key is (table,
std::to_string(date), rangeId); the final line is
static_cast<UInt32>(std::stoi(shardId)). -/
def lookupShard (env : DictionaryEnv) (table : String) (date rangeId : Nat)
    (activeVersion : String) : Except CppError Nat :=
  if env.loadable = false then
    Except.error (CppError.dbException
      ("Shard not found as dictionary partition_map_dict can not be loaded for "
        ++ getDebugContext table date rangeId activeVersion)
      ErrorCode.illegalTypeOfArgument)
  else if env.isComplexKeyHashed = false then
    Except.error (CppError.dbException
      ("Shard not found as dictionary partition_map_dict is not available for "
        ++ getDebugContext table date rangeId activeVersion)
      ErrorCode.illegalTypeOfArgument)
  else
    let shardId := env.getString activeVersion (table, toString date, rangeId)
    if shardId.isEmpty then
      Except.error (CppError.dbException
        ("Shard not found in dictionary partition_map_dict for "
          ++ getDebugContext table date rangeId activeVersion)
        ErrorCode.illegalTypeOfArgument)
    else
      (stoi shardId).map castToUInt32

/-- NuColumnarConsistentHash::getReturnTypeImpl: the bind-time arity check;
anything other than exactly 3 arguments throws
NUMBER_OF_ARGUMENTS_DOESNT_MATCH, otherwise the return type is UInt32. -/
def consistentHashGetReturnType (argTypes : List TypeIndex) : Except CppError TypeIndex :=
  if argTypes.length ≠ 3 then
    Except.error (CppError.dbException
      ("Number of arguments for function NuColumnarConsistentHash does not match: passed "
        ++ toString argTypes.length ++ ", should be 3.")
      ErrorCode.numberOfArgumentsDoesntMatch)
  else Except.ok TypeIndex.tUInt32

/-- NuColumnarConsistentHash::executeImpl: checks the declared types of the
three argument columns (String, UInt32, UInt32) throwing ILLEGAL_COLUMN on
mismatch, reads row 0 of each, calls lookupShard with the hard-coded
version A, and pushes the shard as the single element of the result column
(modelled as the result column data). Message texts keep the source wording
with quote characters elided. -/
def consistentHashExecuteImpl (env : DictionaryEnv) (block : Block)
    (arguments : List Nat) : Except CppError (List Nat) :=
  let tableCol := block.colAt (arguments.getD 0 0)
  if tableCol.type ≠ TypeIndex.tString then
    Except.error (CppError.dbException
      "NuColumnarConsistentHash function first argument table is not String type"
      ErrorCode.illegalColumn)
  else
    let dateCol := block.colAt (arguments.getD 1 0)
    if dateCol.type ≠ TypeIndex.tUInt32 then
      Except.error (CppError.dbException
        "NuColumnarConsistentHash function second argument date is not UInt32 type"
        ErrorCode.illegalColumn)
    else
      let rangeidCol := block.colAt (arguments.getD 2 0)
      if rangeidCol.type ≠ TypeIndex.tUInt32 then
        Except.error (CppError.dbException
          "NuColumnarConsistentHash function third argument range_id is not UInt32 type"
          ErrorCode.illegalColumn)
      else
        (lookupShard env tableCol.row0.asString dateCol.row0.asUInt32
          rangeidCol.row0.asUInt32 "A").map (fun shard => [shard])

/-- C2: for every table name, date, rangeId and version, lookupShard builds
the composite key (table, decimal string of the date, rangeId), queries the
dictionary for the version attribute with it, and a mapping to the string 3
yields the shard id 3. -/
theorem lookupShard_success (env : DictionaryEnv) (t : String) (d r : Nat) (v : String)
    (h1 : env.loadable = true) (h2 : env.isComplexKeyHashed = true)
    (hmap : env.getString v (t, toString d, r) = "3") :
    lookupShard env t d r v = Except.ok 3 := by
  simp only [lookupShard, h1, h2, hmap]
  rfl

/-- Concrete dictionary for the spec example: version A maps the key
(orders, 20230101, 5) to the string 3; every other key is absent. -/
def ordersDict : DictionaryEnv :=
  ⟨true, true, fun attr key =>
    if attr = "A" ∧ key = ("orders", "20230101", 5) then "3" else ""⟩

theorem lookupShard_success_witness :
    lookupShard ordersDict "orders" 20230101 5 "A" = Except.ok 3 :=
  lookupShard_success ordersDict "orders" 20230101 5 "A" rfl rfl (by decide)

/-- Dictionary whose lookup answers the non-numeric string 3x for every
key. -/
def dict3x : DictionaryEnv := ⟨true, true, fun _ _ => "3x"⟩

/-- C3 counterexample: the dictionary returns the non-empty string 3x, which
is not a numeric shard id, yet lookupShard succeeds with shard id 3:
std::stoi parses the digit run and silently drops the trailing garbage,
contradicting the claim that such a result always fails and is never
coerced. -/
theorem lookupShard_silent_coercion :
    "3x".isEmpty = false
    ∧ "3x".data.all Char.isDigit = false
    ∧ lookupShard dict3x "orders" 20230101 5 "A" = Except.ok 3 :=
  ⟨rfl, rfl, rfl⟩

/-- C3 amended: a returned non-empty string with no digit at the start of
its subject sequence (after optional whitespace and sign) gives std::stoi
nothing to parse and lookupShard fails with the std::invalid_argument parse
failure; a string that does start with a digit run is instead silently
coerced to the value of that run. -/
theorem lookupShard_nonnumeric_fails (env : DictionaryEnv) (t : String) (d r : Nat)
    (v s : String) (h1 : env.loadable = true) (h2 : env.isComplexKeyHashed = true)
    (hs : env.getString v (t, toString d, r) = s) (hne : s.isEmpty = false)
    (hnd : ∀ c ∈ (stoiRest s).head?, c.isDigit = false) :
    lookupShard env t d r v = Except.error CppError.stdInvalidArgument := by
  have hstoi : stoi s = Except.error CppError.stdInvalidArgument := by
    have hdig : ((stoiRest s).takeWhile Char.isDigit).isEmpty = true := by
      cases hl : stoiRest s with
      | nil => rfl
      | cons c cs =>
        have hc : c.isDigit = false := hnd c (by simp [hl])
        simp [List.takeWhile_cons, hc]
    simp only [stoi, hdig]
    rfl
  simp only [lookupShard, h1, h2, hs, hne, hstoi]
  rfl

/-- Dictionary whose lookup answers the fully non-numeric string abc for
every key. -/
def dictAbc : DictionaryEnv := ⟨true, true, fun _ _ => "abc"⟩

theorem lookupShard_nonnumeric_fails_witness :
    lookupShard dictAbc "orders" 20230101 5 "A" = Except.error CppError.stdInvalidArgument :=
  lookupShard_nonnumeric_fails dictAbc "orders" 20230101 5 "A" "abc"
    rfl rfl rfl rfl (by decide)

theorem isInfix_of_eq_parts {α : Type} (l pre mid post : List α)
    (h : l = pre ++ (mid ++ post)) : List.IsInfix mid l :=
  ⟨pre, post, by rw [List.append_assoc, ← h]⟩

/-- C4: when the dictionary is obtained and well-formed but the lookup
returns the empty string for the composite key, lookupShard fails with the
shard-not-found error, and the message carries the full lookup context:
table, date, rangeId and version each occur in it. -/
theorem lookupShard_notFound_context (env : DictionaryEnv) (t : String) (d r : Nat)
    (v : String) (h1 : env.loadable = true) (h2 : env.isComplexKeyHashed = true)
    (hempty : env.getString v (t, toString d, r) = "") :
    ∃ msg, lookupShard env t d r v
        = Except.error (CppError.dbException msg ErrorCode.illegalTypeOfArgument)
      ∧ msg = "Shard not found in dictionary partition_map_dict for "
          ++ getDebugContext t d r v
      ∧ List.IsInfix t.data msg.data
      ∧ List.IsInfix (toString d).data msg.data
      ∧ List.IsInfix (toString r).data msg.data
      ∧ List.IsInfix v.data msg.data := by
  refine ⟨"Shard not found in dictionary partition_map_dict for "
    ++ getDebugContext t d r v, ?_, rfl, ?_, ?_, ?_, ?_⟩
  · simp only [lookupShard, h1, h2, hempty]
    rfl
  · refine isInfix_of_eq_parts _
      (("Shard not found in dictionary partition_map_dict for ").data
        ++ ("table: ").data) t.data
      ((", date: ").data ++ (toString d).data ++ (", rangeId: ").data
        ++ (toString r).data ++ (", activeVersion: ").data ++ v.data) ?_
    simp [getDebugContext, String.data_append, List.append_assoc]
  · refine isInfix_of_eq_parts _
      (("Shard not found in dictionary partition_map_dict for ").data
        ++ ("table: ").data ++ t.data ++ (", date: ").data) (toString d).data
      ((", rangeId: ").data ++ (toString r).data
        ++ (", activeVersion: ").data ++ v.data) ?_
    simp [getDebugContext, String.data_append, List.append_assoc]
  · refine isInfix_of_eq_parts _
      (("Shard not found in dictionary partition_map_dict for ").data
        ++ ("table: ").data ++ t.data ++ (", date: ").data ++ (toString d).data
        ++ (", rangeId: ").data) (toString r).data
      ((", activeVersion: ").data ++ v.data) ?_
    simp [getDebugContext, String.data_append, List.append_assoc]
  · refine isInfix_of_eq_parts _
      (("Shard not found in dictionary partition_map_dict for ").data
        ++ ("table: ").data ++ t.data ++ (", date: ").data ++ (toString d).data
        ++ (", rangeId: ").data ++ (toString r).data
        ++ (", activeVersion: ").data) v.data [] ?_
    simp [getDebugContext, String.data_append, List.append_assoc]

theorem lookupShard_notFound_context_witness :
    ∃ msg, lookupShard ordersDict "orders" 20230101 9 "A"
        = Except.error (CppError.dbException msg ErrorCode.illegalTypeOfArgument)
      ∧ msg = "Shard not found in dictionary partition_map_dict for "
          ++ getDebugContext "orders" 20230101 9 "A"
      ∧ List.IsInfix "orders".data msg.data
      ∧ List.IsInfix (toString (20230101 : Nat)).data msg.data
      ∧ List.IsInfix (toString (9 : Nat)).data msg.data
      ∧ List.IsInfix "A".data msg.data :=
  lookupShard_notFound_context ordersDict "orders" 20230101 9 "A" rfl rfl (by decide)

/-- C9: binding NuColumnarConsistentHash with any argument count other than
3 fails in getReturnTypeImpl, i.e. at bind time before any row is
processed, with the wrong-argument-count error (and with exactly 3 it binds
to UInt32); executing it over a block whose first argument column is not
String typed, or whose second or third argument column is not UInt32 typed,
fails with the illegal-column argument type error. -/
theorem consistentHash_argument_validation :
    (∀ argTypes : List TypeIndex, argTypes.length ≠ 3 →
      ∃ msg, consistentHashGetReturnType argTypes
        = Except.error (CppError.dbException msg ErrorCode.numberOfArgumentsDoesntMatch))
    ∧ (∀ argTypes : List TypeIndex, argTypes.length = 3 →
      consistentHashGetReturnType argTypes = Except.ok TypeIndex.tUInt32)
    ∧ (∀ (env : DictionaryEnv) (block : Block) (args : List Nat),
      ((block.colAt (args.getD 0 0)).type ≠ TypeIndex.tString
        ∨ (block.colAt (args.getD 1 0)).type ≠ TypeIndex.tUInt32
        ∨ (block.colAt (args.getD 2 0)).type ≠ TypeIndex.tUInt32) →
      ∃ msg, consistentHashExecuteImpl env block args
        = Except.error (CppError.dbException msg ErrorCode.illegalColumn)) := by
  refine ⟨?_, ?_, ?_⟩
  · intro ts h
    have he : consistentHashGetReturnType ts
        = Except.error (CppError.dbException
          ("Number of arguments for function NuColumnarConsistentHash does not match: passed "
            ++ toString ts.length ++ ", should be 3.")
          ErrorCode.numberOfArgumentsDoesntMatch) := by
      unfold consistentHashGetReturnType
      rw [if_pos h]
    exact ⟨_, he⟩
  · intro ts h
    unfold consistentHashGetReturnType
    rw [if_neg (by omega)]
  · intro env block args hbad
    by_cases h0 : (block.colAt (args.getD 0 0)).type = TypeIndex.tString
    · by_cases hd : (block.colAt (args.getD 1 0)).type = TypeIndex.tUInt32
      · have h2 : (block.colAt (args.getD 2 0)).type ≠ TypeIndex.tUInt32 := by
          tauto
        have he : consistentHashExecuteImpl env block args
            = Except.error (CppError.dbException
              "NuColumnarConsistentHash function third argument range_id is not UInt32 type"
              ErrorCode.illegalColumn) := by
          simp only [consistentHashExecuteImpl]
          rw [if_neg (not_not_intro h0), if_neg (not_not_intro hd), if_pos h2]
        exact ⟨_, he⟩
      · have he : consistentHashExecuteImpl env block args
            = Except.error (CppError.dbException
              "NuColumnarConsistentHash function second argument date is not UInt32 type"
              ErrorCode.illegalColumn) := by
          simp only [consistentHashExecuteImpl]
          rw [if_neg (not_not_intro h0), if_pos hd]
        exact ⟨_, he⟩
    · have he : consistentHashExecuteImpl env block args
          = Except.error (CppError.dbException
            "NuColumnarConsistentHash function first argument table is not String type"
            ErrorCode.illegalColumn) := by
        simp only [consistentHashExecuteImpl]
        rw [if_pos h0]
      exact ⟨_, he⟩

/-- Block whose first column is UInt8 typed: not a valid first argument for
the shard function. -/
def badBlock : Block :=
  ⟨[⟨TypeIndex.tUInt8, [CValue.vUInt8 1]⟩,
    ⟨TypeIndex.tUInt32, [CValue.vUInt32 20230101]⟩,
    ⟨TypeIndex.tUInt32, [CValue.vUInt32 5]⟩]⟩

theorem consistentHash_argument_validation_witness :
    (∃ msg, consistentHashGetReturnType [TypeIndex.tString, TypeIndex.tUInt32]
      = Except.error (CppError.dbException msg ErrorCode.numberOfArgumentsDoesntMatch))
    ∧ (∃ msg, consistentHashExecuteImpl ordersDict badBlock [0, 1, 2]
      = Except.error (CppError.dbException msg ErrorCode.illegalColumn)) :=
  ⟨consistentHash_argument_validation.1 [TypeIndex.tString, TypeIndex.tUInt32] (by decide),
   consistentHash_argument_validation.2.2 ordersDict badBlock [0, 1, 2]
     (Or.inl (by decide))⟩

/-- C10: both exposed functions read only row index 0 of each argument
column and write a result column of exactly one element, whatever the
number of rows: the bucket result always has length 1, a successful shard
result has length 1, and two blocks whose argument columns agree in
declared type and row-0 value (their remaining rows may differ arbitrarily)
produce identical results for both functions. -/
theorem executeImpl_row0_single_result :
    (∀ (block : Block) (args : List Nat), (hashRangeExecuteImpl block args).length = 1)
    ∧ (∀ (env : DictionaryEnv) (block : Block) (args : List Nat) (res : List Nat),
        consistentHashExecuteImpl env block args = Except.ok res → res.length = 1)
    ∧ (∀ (b1 b2 : Block) (args : List Nat),
        (∀ i ∈ args, (b1.colAt i).type = (b2.colAt i).type
          ∧ (b1.colAt i).row0 = (b2.colAt i).row0) →
        hashRangeExecuteImpl b1 args = hashRangeExecuteImpl b2 args)
    ∧ (∀ (env : DictionaryEnv) (b1 b2 : Block) (args : List Nat),
        (∀ k < 3, (b1.colAt (args.getD k 0)).type = (b2.colAt (args.getD k 0)).type
          ∧ (b1.colAt (args.getD k 0)).row0 = (b2.colAt (args.getD k 0)).row0) →
        consistentHashExecuteImpl env b1 args = consistentHashExecuteImpl env b2 args) := by
  refine ⟨?_, ?_, ?_, ?_⟩
  · intro block args
    simp [hashRangeExecuteImpl]
  · intro env block args res h
    simp only [consistentHashExecuteImpl] at h
    split at h
    · simp at h
    · split at h
      · simp at h
      · split at h
        · simp at h
        · cases hl : lookupShard env ((Block.colAt block (args.getD 0 0)).row0.asString)
            ((Block.colAt block (args.getD 1 0)).row0.asUInt32)
            ((Block.colAt block (args.getD 2 0)).row0.asUInt32) "A" with
          | error e => rw [hl] at h; simp [Except.map] at h
          | ok shard =>
            rw [hl] at h
            simp only [Except.map, Except.ok.injEq] at h
            rw [← h]
            rfl
  · intro b1 b2 args h
    have hc : concatenatedHash b1 args = concatenatedHash b2 args :=
      concatenatedHash_congr_row0 b1 b2 args h
    simp only [hashRangeExecuteImpl, hc]
  · intro env b1 b2 args h
    have h0 := h 0 (by omega)
    have h1 := h 1 (by omega)
    have h2 := h 2 (by omega)
    simp only [consistentHashExecuteImpl, h0.1, h1.1, h2.1, h0.2, h1.2, h2.2]

/-- Blocks agreeing in type and row-0 value of column 0 but with different
trailing rows and row counts. -/
def rowBlockA : Block :=
  ⟨[⟨TypeIndex.tInt64, [CValue.vInt64 1, CValue.vInt64 50, CValue.vInt64 60]⟩]⟩

def rowBlockB : Block :=
  ⟨[⟨TypeIndex.tInt64, [CValue.vInt64 1, CValue.vInt64 999]⟩]⟩

theorem executeImpl_row0_single_result_witness :
    (hashRangeExecuteImpl rowBlockA [0]).length = 1
    ∧ hashRangeExecuteImpl rowBlockA [0] = hashRangeExecuteImpl rowBlockB [0] :=
  ⟨executeImpl_row0_single_result.1 rowBlockA [0],
   executeImpl_row0_single_result.2.2.1 rowBlockA rowBlockB [0] (by decide)⟩

theorem hashRange_bucket_correct_witness :
    (∀ i ∈ [0, 1], supportedType (orderBlock.colAt i).type = true)
    ∧ (1 ≤ (hashRangeExecuteImpl orderBlock [0, 1]).headD 0
      ∧ (hashRangeExecuteImpl orderBlock [0, 1]).headD 0 ≤ 16) :=
  ⟨by decide, (hashRange_bucket_correct orderBlock [0, 1] (by decide)).1⟩

/-- Block holding only unsupported-type columns (a Date column and a column
of some other unlisted type). -/
def otherBlock : Block :=
  ⟨[⟨TypeIndex.tDate, [CValue.vUInt32 7]⟩, ⟨TypeIndex.tOther, []⟩]⟩

theorem hashRange_unsupported_bucket_one_witness :
    hashRangeExecuteImpl otherBlock [0, 1] = [1] :=
  hashRange_unsupported_bucket_one otherBlock [0, 1] (by decide)

/-- Block sharing columns 0 and 1 with orderBlock but carrying an extra
column: a distinct invocation context with the same argument tuple. -/
def orderBlockPadded : Block :=
  ⟨[⟨TypeIndex.tInt64, [CValue.vInt64 1]⟩, ⟨TypeIndex.tInt64, [CValue.vInt64 3]⟩,
    ⟨TypeIndex.tString, [CValue.vString "junk"]⟩]⟩

theorem hashRange_deterministic_witness :
    hashRangeExecuteImpl orderBlock [0, 1] = hashRangeExecuteImpl orderBlockPadded [0, 1] :=
  hashRange_deterministic orderBlock orderBlockPadded [0, 1] (by decide)

end NuHash
